import Mathlib

/-!
Verification of the `cli_select` single-selection terminal dialog
(`src/select.rs`).

The dialog state, its configuration setters, the render/erase protocol and
the blocking event loop are embedded as pure functions.  Terminal output is
modelled as a list of output commands, the blocking input source as a list
of events consumed in order, and a Rust panic (including a failed bounds
check on indexing) as `Option.none`.
-/

namespace CliSelect

set_option linter.unusedSectionVars false

/-- Key codes of input events (`crossterm::event::KeyCode`): the fixed
confirm code `Enter`, the arrow keys used as default bindings, printable
characters, and an opaque remainder for every other code. -/
inductive KeyCode where
  | Enter : KeyCode
  | Up : KeyCode
  | Down : KeyCode
  | Char : Char → KeyCode
  | Other : Nat → KeyCode
deriving DecidableEq

/-- Modifier-key bitmask (`crossterm::event::KeyModifiers`). -/
abbrev KeyModifiers := Nat

/-- Constant `KeyModifiers::NONE`: no modifier key held. -/
def KeyModifiers.NONE : KeyModifiers := 0

/-- A key press (`crossterm::event::KeyEvent`): a code plus the held
modifiers. -/
structure KeyEvent where
  code : KeyCode
  modifiers : KeyModifiers
deriving DecidableEq

/-- A terminal input event (`crossterm::event::Event`); non-key events are
opaque and the dialog ignores them. -/
inductive Event where
  | Key : KeyEvent → Event
  | Other : Nat → Event
deriving DecidableEq

/-- Direction tag passed to the change callback (`crate::SelectDialogKey`). -/
inductive SelectDialogKey where
  | UpKey : SelectDialogKey
  | DownKey : SelectDialogKey
deriving DecidableEq

/-- Modelled from the spec: `crate::line::Line` (file `src/line.rs`) is not
among the sources.  Per §3 of the spec a `Line` carries the item's display
text, the pointer glyph, and the per-repaint style flags `selected`,
`underlined` and `indent`. -/
structure Line where
  text : String
  pointer : Char
  selected : Bool
  underlined : Bool
  indent : Nat
deriving DecidableEq

/-- Modelled from the spec: `Line::new` builds a line from display text and
pointer glyph with all style flags cleared. -/
def Line.new (text : String) (pointer : Char) : Line :=
  { text := text, pointer := pointer, selected := false, underlined := false, indent := 0 }

/-- Modelled from the spec: `line.default()` clears the style flags. -/
def Line.default (l : Line) : Line :=
  { l with selected := false, underlined := false, indent := 0 }

/-- Modelled from the spec: `line.select()` marks the line selected. -/
def Line.select (l : Line) : Line :=
  { l with selected := true }

/-- Modelled from the spec: `line.underline()` marks the line underlined. -/
def Line.underline (l : Line) : Line :=
  { l with underlined := true }

/-- Modelled from the spec: `line.space_from_pointer(n)` sets the indent
inserted between pointer and text. -/
def Line.space_from_pointer (l : Line) (n : Nat) : Line :=
  { l with indent := n }

/-- One unit of terminal output: a rendered item line
(`println!("{}", line)`), a blank overwrite row
(`println!("{}", " ".repeat(w))`), or the cursor-up control sequence
emitted by `move_n_lines_up`. -/
inductive OutCmd where
  | line : Line → OutCmd
  | blank : Nat → OutCmd
  | moveUp : Nat → OutCmd
deriving DecidableEq

/-- In-place update of one list element, as in `self.lines[i].select()`.
Callers establish the bound separately (Rust panics on an out-of-bounds
index; `print_lines` models that check explicitly). -/
def modifyIdx {α : Type _} : List α → Nat → (α → α) → List α
  | [], _, _ => []
  | a :: as, 0, f => f a :: as
  | a :: as, n + 1, f => a :: modifyIdx as n f

/-- The dialog state (`Select<'a, I>` in `src/select.rs`).  The change
callback `selection_changed : Option<Box<dyn Fn(SelectDialogKey, &I)>>` is
modelled by its presence; its invocations are recorded in a trace. -/
structure Select (I : Type) where
  items : List I
  lines : List Line
  selected_item : Nat
  pointer : Char
  not_selected_pointer : Option Char
  default_up : KeyCode
  default_down : KeyCode
  up_keys : List KeyCode
  down_keys : List KeyCode
  selection_changed : Bool
  move_selected_item_forward : Bool
  underline_selected_item : Bool
deriving DecidableEq

variable {I : Type} [ToString I]

/-- Constructor `Select::new`: construction performs no validation of the item list. -/
def Select.new (items : List I) : Select I where
  items := items
  pointer := '>'
  selected_item := 0
  default_up := KeyCode.Up
  default_down := KeyCode.Down
  selection_changed := false
  not_selected_pointer := none
  move_selected_item_forward := false
  underline_selected_item := false
  up_keys := []
  down_keys := []
  lines := []

/-- Method `build_lines`: one `Line` per item, from the item's display text and the
configured pointer glyph. -/
def Select.build_lines (s : Select I) : Select I :=
  { s with lines := s.items.map (fun item => Line.new (toString item) s.pointer) }

/-- The restyling pass of `print_lines`: reset every line with
`line.default()`, then `select` the line at `selected_item`, optionally
`underline` it and optionally indent it by one. -/
def Select.painted_lines (s : Select I) : List Line :=
  let ls0 := s.lines.map Line.default
  let ls1 := modifyIdx ls0 s.selected_item Line.select
  let ls2 :=
    if s.underline_selected_item then modifyIdx ls1 s.selected_item Line.underline else ls1
  if s.move_selected_item_forward then
    modifyIdx ls2 s.selected_item (fun l => l.space_from_pointer 1)
  else ls2

/-- Method `print_lines`: restyle every line from the current selection and print
them in order.  The indexing `self.lines[self.selected_item]` panics
(`none`) when out of bounds — for an empty item list this happens before
any line is printed.  Resetting the lines first preserves their count, so
one bound check covers all three indexed updates. -/
def Select.print_lines (s : Select I) : Option (Select I × List OutCmd) :=
  if s.selected_item < s.lines.length then
    some ({ s with lines := s.painted_lines }, s.painted_lines.map OutCmd.line)
  else none

/-- Method `erase_printed_items`: move the cursor up four rows, overwrite one row
per item with `item.to_string().chars().count() + 3` blanks, then move the
cursor up four rows again. -/
def Select.erase_printed_items (s : Select I) : List OutCmd :=
  OutCmd.moveUp 4 ::
    (s.items.map (fun item => OutCmd.blank ((toString item).length + 3)) ++ [OutCmd.moveUp 4])

/-- Method `move_up`: clamp at index `0`, otherwise decrement, erase the previous
block and repaint. -/
def Select.move_up (s : Select I) : Option (Select I × List OutCmd) :=
  if s.selected_item = 0 then some (s, [])
  else
    let s1 : Select I := { s with selected_item := s.selected_item - 1 }
    match s1.print_lines with
    | none => none
    | some (s2, out) => some (s2, s1.erase_printed_items ++ out)

/-- Method `move_down`: clamp at the last index, otherwise increment, erase the
previous block and repaint.  The guard compares against
`self.items.len() - 1`; for an empty list that subtraction underflows in
Rust, but the session has already panicked in the initial paint by then. -/
def Select.move_down (s : Select I) : Option (Select I × List OutCmd) :=
  if s.selected_item = s.items.length - 1 then some (s, [])
  else
    let s1 : Select I := { s with selected_item := s.selected_item + 1 }
    match s1.print_lines with
    | none => none
    | some (s2, out) => some (s2, s1.erase_printed_items ++ out)

/-- Method `call_event_handler_if_supplied`: when a callback is registered, invoke
it with the direction tag and `self.items[self.selected_item]`; the
indexing panics (`none`) when out of bounds. -/
def Select.call_event_handler_if_supplied (s : Select I) (key : SelectDialogKey) :
    Option (List (SelectDialogKey × I)) :=
  if s.selection_changed then
    if h : s.selected_item < s.items.length then
      some [(key, s.items.get ⟨s.selected_item, h⟩)]
    else none
  else some []

/-- The fixed confirm event tested first in the loop: `Enter` with no
modifiers. -/
def confirmEvent : Event :=
  Event.Key { code := KeyCode.Enter, modifiers := KeyModifiers.NONE }

/-- Method `event_contains_key`: linear scan; an event matches a binding exactly
when it is a key event with that code and no modifiers. -/
def Select.event_contains_key (_s : Select I) (event : Event) (keys : List KeyCode) : Bool :=
  keys.any (fun key =>
    decide (event = Event.Key { code := key, modifiers := KeyModifiers.NONE }))

/-- One iteration of the `loop` body in `start`, given the event read:
first the confirm test (`true` means break), then the up-set match, then
the down-set match, else the event is discarded.  Returns the flag, the
next state, the output emitted and the callback-invocation trace. -/
def Select.step (s : Select I) (event : Event) :
    Option (Bool × Select I × List OutCmd × List (SelectDialogKey × I)) :=
  if event = confirmEvent then
    some (true, s, [], [])
  else if s.event_contains_key event s.up_keys then
    match s.move_up with
    | none => none
    | some (s1, out) =>
      match s1.call_event_handler_if_supplied SelectDialogKey.UpKey with
      | none => none
      | some tr => some (false, s1, out, tr)
  else if s.event_contains_key event s.down_keys then
    match s.move_down with
    | none => none
    | some (s1, out) =>
      match s1.call_event_handler_if_supplied SelectDialogKey.DownKey with
      | none => none
      | some tr => some (false, s1, out, tr)
  else
    some (false, s, [], [])

/-- The event loop of `start`: consume events until the confirm event
breaks the loop; return the final state, the output, the callback trace
and the events left unread.  An exhausted event list models the blocking
read never being satisfied (`none`). -/
def Select.loop : Select I → List Event → Option (Select I × List OutCmd × List (SelectDialogKey × I) × List Event)
  | _, [] => none
  | s, event :: rest =>
    match s.step event with
    | none => none
    | some (true, s1, out, tr) => some (s1, out, tr, rest)
    | some (false, s1, out, tr) =>
      match Select.loop s1 rest with
      | none => none
      | some (sf, out2, tr2, rem) => some (sf, out ++ out2, tr ++ tr2, rem)

/-- The state the loop holds after consuming the given events (stopping
early at a confirm event): the reachable session states are exactly the
values of this function on prefixes of the input. -/
def Select.run_events : Select I → List Event → Option (Select I)
  | s, [] => some s
  | s, event :: rest =>
    match s.step event with
    | none => none
    | some (true, s1, _, _) => some s1
    | some (false, s1, _, _) => Select.run_events s1 rest

/-- The key-set push `start` performs before entering the loop: the default
up and down codes are appended to the custom key lists. -/
def Select.session_keys (s : Select I) : Select I :=
  { s with
    up_keys := s.up_keys ++ [s.default_up]
    down_keys := s.down_keys ++ [s.default_down] }

/-- The part of `start` before the loop: build the lines, do the initial
paint, then push the default keys. -/
def Select.session_init (s : Select I) : Option (Select I × List OutCmd) :=
  match s.build_lines.print_lines with
  | none => none
  | some (s1, out) => some (s1.session_keys, out)

/-- Method `start`: initial paint, key push, event loop, and finally return
`self.items[self.selected_item]` (a panic, `none`, when out of bounds). -/
def Select.start (s : Select I) (events : List Event) :
    Option (I × List OutCmd × List (SelectDialogKey × I) × List Event) :=
  match s.session_init with
  | none => none
  | some (s1, out0) =>
    match s1.loop events with
    | none => none
    | some (sf, out1, tr, rem) =>
      if h : sf.selected_item < sf.items.length then
        some (sf.items.get ⟨sf.selected_item, h⟩, out0 ++ out1, tr, rem)
      else none

/-- Setter `pointer`: set the pointer glyph (renamed, the field has the Rust
method's name). -/
def Select.set_pointer (s : Select I) (pointer : Char) : Select I :=
  { s with pointer := pointer }

/-- Setter `set_up_key`: override the default up key, with no validation. -/
def Select.set_up_key (s : Select I) (key : KeyCode) : Select I :=
  { s with default_up := key }

/-- Setter `set_down_key`: override the default down key, with no validation. -/
def Select.set_down_key (s : Select I) (key : KeyCode) : Select I :=
  { s with default_down := key }

/-- Setter `not_selected_pointer`: set the alternate glyph (renamed, the field has
the Rust method's name). -/
def Select.set_not_selected_pointer (s : Select I) (pointer : Char) : Select I :=
  { s with not_selected_pointer := some pointer }

/-- Setter `move_selected_item_forward` (renamed, the field has the Rust method's
name). -/
def Select.set_move_selected_item_forward (s : Select I) : Select I :=
  { s with move_selected_item_forward := true }

/-- Setter `underline_selected_item` (renamed, the field has the Rust method's
name). -/
def Select.set_underline_selected_item (s : Select I) : Select I :=
  { s with underline_selected_item := true }

/-- Registering a change callback (the public `selection_changed` field is
assigned directly in Rust). -/
def Select.set_selection_changed (s : Select I) : Select I :=
  { s with selection_changed := true }

/-- Validation `panic_if_key_is_enter`: the only key validation; `none` is the
panic. -/
def panic_if_key_is_enter (key : KeyCode) : Option Unit :=
  if key = KeyCode.Enter then none else some ()

/-- Method `add_up_key`: reject `Enter`, otherwise append to the custom up keys. -/
def Select.add_up_key (s : Select I) (key : KeyCode) : Option (Select I) :=
  match panic_if_key_is_enter key with
  | none => none
  | some _ => some { s with up_keys := s.up_keys ++ [key] }

/-- Method `add_down_key`: reject `Enter`, otherwise append to the custom down
keys. -/
def Select.add_down_key (s : Select I) (key : KeyCode) : Option (Select I) :=
  match panic_if_key_is_enter key with
  | none => none
  | some _ => some { s with down_keys := s.down_keys ++ [key] }

/-- One configuration-setter call, for quantifying over every dialog
configuration reachable before `start`. -/
inductive ConfigOp where
  | set_pointer : Char → ConfigOp
  | set_up_key : KeyCode → ConfigOp
  | set_down_key : KeyCode → ConfigOp
  | set_not_selected_pointer : Char → ConfigOp
  | set_move_selected_item_forward : ConfigOp
  | set_underline_selected_item : ConfigOp
  | add_up_key : KeyCode → ConfigOp
  | add_down_key : KeyCode → ConfigOp
  | set_selection_changed : ConfigOp
deriving DecidableEq

/-- Apply one configuration call; `none` is a panic in the call. -/
def applyOp (s : Select I) : ConfigOp → Option (Select I)
  | ConfigOp.set_pointer c => some (s.set_pointer c)
  | ConfigOp.set_up_key k => some (s.set_up_key k)
  | ConfigOp.set_down_key k => some (s.set_down_key k)
  | ConfigOp.set_not_selected_pointer c => some (s.set_not_selected_pointer c)
  | ConfigOp.set_move_selected_item_forward => some s.set_move_selected_item_forward
  | ConfigOp.set_underline_selected_item => some s.set_underline_selected_item
  | ConfigOp.add_up_key k => s.add_up_key k
  | ConfigOp.add_down_key k => s.add_down_key k
  | ConfigOp.set_selection_changed => some s.set_selection_changed

/-- Apply a sequence of configuration calls. -/
def applyOps : Select I → List ConfigOp → Option (Select I)
  | s, [] => some s
  | s, op :: ops =>
    match applyOp s op with
    | none => none
    | some s1 => applyOps s1 ops

/-- Override only the `not_selected_pointer` field: the pair `s`,
`s.with_nsp v` ranges over all pairs of dialogs identical except for that
setting. -/
def Select.with_nsp (s : Select I) (v : Option Char) : Select I :=
  { s with not_selected_pointer := v }

/-- The in-session invariant: the selection index is in bounds and there is
one rendered line per item. -/
abbrev Inv (s : Select I) : Prop :=
  s.selected_item < s.items.length ∧ s.lines.length = s.items.length

theorem modifyIdx_length {α : Type _} (l : List α) (n : Nat) (f : α → α) :
    (modifyIdx l n f).length = l.length := by
  induction l generalizing n with
  | nil => rfl
  | cons a as ih =>
    cases n with
    | zero => rfl
    | succ n => simp [modifyIdx, ih]

theorem painted_lines_length (s : Select I) : s.painted_lines.length = s.lines.length := by
  cases h1 : s.underline_selected_item <;> cases h2 : s.move_selected_item_forward <;>
    simp [Select.painted_lines, h1, h2, modifyIdx_length]

theorem print_lines_spec (s : Select I) (h : s.selected_item < s.lines.length) :
    s.print_lines = some ({ s with lines := s.painted_lines }, s.painted_lines.map OutCmd.line) := by
  simp [Select.print_lines, h]

theorem print_lines_oob (s : Select I) (h : ¬ s.selected_item < s.lines.length) :
    s.print_lines = none := by
  simp [Select.print_lines, h]

theorem move_up_spec (s : Select I) (hInv : Inv s) :
    ∃ s' out, s.move_up = some (s', out)
      ∧ s'.selected_item = (if s.selected_item = 0 then s.selected_item else s.selected_item - 1)
      ∧ s'.items = s.items
      ∧ s'.lines.length = s.items.length
      ∧ s'.up_keys = s.up_keys ∧ s'.down_keys = s.down_keys
      ∧ s'.selection_changed = s.selection_changed := by
  obtain ⟨h1, h2⟩ := hInv
  by_cases h0 : s.selected_item = 0
  · exact ⟨s, [], by simp [Select.move_up, h0], by simp [h0], rfl, h2, rfl, rfl, rfl⟩
  · have hb : ({ s with selected_item := s.selected_item - 1 } : Select I).selected_item
        < ({ s with selected_item := s.selected_item - 1 } : Select I).lines.length := by
      show s.selected_item - 1 < s.lines.length
      omega
    have heq := print_lines_spec ({ s with selected_item := s.selected_item - 1 } : Select I) hb
    have hmu : s.move_up
        = some ({ ({ s with selected_item := s.selected_item - 1 } : Select I) with
                    lines := ({ s with selected_item := s.selected_item - 1 } : Select I).painted_lines },
            ({ s with selected_item := s.selected_item - 1 } : Select I).erase_printed_items
              ++ ({ s with selected_item := s.selected_item - 1 } : Select I).painted_lines.map OutCmd.line) := by
      simp [Select.move_up, h0, heq]
    refine ⟨_, _, hmu, by simp [h0], rfl, ?_, rfl, rfl, rfl⟩
    show ({ s with selected_item := s.selected_item - 1 } : Select I).painted_lines.length
        = s.items.length
    rw [painted_lines_length]
    exact h2

theorem move_down_spec (s : Select I) (hInv : Inv s) :
    ∃ s' out, s.move_down = some (s', out)
      ∧ s'.selected_item
          = (if s.selected_item = s.items.length - 1 then s.selected_item else s.selected_item + 1)
      ∧ s'.items = s.items
      ∧ s'.lines.length = s.items.length
      ∧ s'.up_keys = s.up_keys ∧ s'.down_keys = s.down_keys
      ∧ s'.selection_changed = s.selection_changed := by
  obtain ⟨h1, h2⟩ := hInv
  by_cases h0 : s.selected_item = s.items.length - 1
  · exact ⟨s, [], by simp [Select.move_down, h0], by simp [h0], rfl, h2, rfl, rfl, rfl⟩
  · have hb : ({ s with selected_item := s.selected_item + 1 } : Select I).selected_item
        < ({ s with selected_item := s.selected_item + 1 } : Select I).lines.length := by
      show s.selected_item + 1 < s.lines.length
      omega
    have heq := print_lines_spec ({ s with selected_item := s.selected_item + 1 } : Select I) hb
    have hmd : s.move_down
        = some ({ ({ s with selected_item := s.selected_item + 1 } : Select I) with
                    lines := ({ s with selected_item := s.selected_item + 1 } : Select I).painted_lines },
            ({ s with selected_item := s.selected_item + 1 } : Select I).erase_printed_items
              ++ ({ s with selected_item := s.selected_item + 1 } : Select I).painted_lines.map OutCmd.line) := by
      simp [Select.move_down, h0, heq]
    refine ⟨_, _, hmd, by simp [h0], rfl, ?_, rfl, rfl, rfl⟩
    show ({ s with selected_item := s.selected_item + 1 } : Select I).painted_lines.length
        = s.items.length
    rw [painted_lines_length]
    exact h2

theorem call_event_handler_spec (s : Select I) (key : SelectDialogKey)
    (h : s.selected_item < s.items.length) :
    s.call_event_handler_if_supplied key
      = some (if s.selection_changed then [(key, s.items.get ⟨s.selected_item, h⟩)] else []) := by
  cases hc : s.selection_changed <;> simp [Select.call_event_handler_if_supplied, hc, h]

theorem step_confirm (s : Select I) : s.step confirmEvent = some (true, s, [], []) := by
  simp [Select.step]

theorem step_spec (s : Select I) (event : Event) (hInv : Inv s) (hne : event ≠ confirmEvent) :
    ∃ s1 out tr, s.step event = some (false, s1, out, tr)
      ∧ Inv s1 ∧ s1.items = s.items
      ∧ s1.up_keys = s.up_keys ∧ s1.down_keys = s.down_keys := by
  by_cases hup : s.event_contains_key event s.up_keys = true
  · obtain ⟨s', out, hmu, hsel, hitems, hlen, hupk, hdnk, _⟩ := move_up_spec s hInv
    have h1' : s'.selected_item < s'.items.length := by
      rw [hsel, hitems]
      have := hInv.1
      split <;> omega
    have hh := call_event_handler_spec s' SelectDialogKey.UpKey h1'
    refine ⟨s', out,
      (if s'.selection_changed = true then
        [(SelectDialogKey.UpKey, s'.items.get ⟨s'.selected_item, h1'⟩)] else []),
      ?_, ⟨h1', ?_⟩, hitems, hupk, hdnk⟩
    · simp [Select.step, hne, hup, hmu, hh]
    · rw [hlen, hitems]
  · by_cases hdn : s.event_contains_key event s.down_keys = true
    · obtain ⟨s', out, hmd, hsel, hitems, hlen, hupk, hdnk, _⟩ := move_down_spec s hInv
      have h1' : s'.selected_item < s'.items.length := by
        rw [hsel, hitems]
        have := hInv.1
        split <;> omega
      have hh := call_event_handler_spec s' SelectDialogKey.DownKey h1'
      refine ⟨s', out,
        (if s'.selection_changed = true then
          [(SelectDialogKey.DownKey, s'.items.get ⟨s'.selected_item, h1'⟩)] else []),
        ?_, ⟨h1', ?_⟩, hitems, hupk, hdnk⟩
      · simp [Select.step, hne, hup, hdn, hmd, hh]
      · rw [hlen, hitems]
    · exact ⟨s, [], [], by simp [Select.step, hne, hup, hdn], hInv, rfl, rfl, rfl⟩

theorem run_events_inv (events : List Event) :
    ∀ s s' : Select I, Inv s → s.run_events events = some s' → Inv s' := by
  induction events with
  | nil =>
    intro s s' h hr
    simp [Select.run_events] at hr
    exact hr ▸ h
  | cons ev rest ih =>
    intro s s' h hr
    by_cases hne : ev = confirmEvent
    · subst hne
      simp [Select.run_events, step_confirm] at hr
      exact hr ▸ h
    · obtain ⟨s1, out, tr, hstep, hinv1, _, _, _⟩ := step_spec s ev h hne
      simp only [Select.run_events] at hr
      rw [hstep] at hr
      exact ih s1 s' hinv1 hr

theorem loop_decomp (pre : List Event) :
    ∀ s : Select I, Inv s → confirmEvent ∉ pre → ∀ rest : List Event,
      ∃ sf out tr, s.run_events pre = some sf ∧ Inv sf
        ∧ s.loop (pre ++ confirmEvent :: rest) = some (sf, out, tr, rest) := by
  induction pre with
  | nil =>
    intro s hs _ rest
    exact ⟨s, [], [], rfl, hs, by simp [Select.loop, step_confirm]⟩
  | cons ev pre ih =>
    intro s hs hmem rest
    have hne : ev ≠ confirmEvent := fun h => hmem (h ▸ List.mem_cons_self _ _)
    have hpre : confirmEvent ∉ pre := fun h => hmem (List.mem_cons_of_mem _ h)
    obtain ⟨s1, out1, tr1, hstep, hinv1, _, _, _⟩ := step_spec s ev hs hne
    obtain ⟨sf, out, tr, hrun, hinvf, hloop⟩ := ih s1 hinv1 hpre rest
    refine ⟨sf, out1 ++ out, tr1 ++ tr, ?_, hinvf, ?_⟩
    · simp only [Select.run_events]
      rw [hstep]
      exact hrun
    · simp only [List.cons_append, Select.loop]
      rw [hstep]
      show (match Select.loop s1 (pre ++ confirmEvent :: rest) with
            | none => none
            | some (sf, out2, tr2, rem) => some (sf, out1 ++ out2, tr1 ++ tr2, rem))
          = some (sf, out1 ++ out, tr1 ++ tr, rest)
      rw [hloop]

theorem session_init_spec (s : Select I) (h : s.selected_item < s.items.length) :
    ∃ s1 out0, s.session_init = some (s1, out0) ∧ Inv s1
      ∧ s1.items = s.items ∧ s1.selected_item = s.selected_item
      ∧ s1.up_keys = s.up_keys ++ [s.default_up]
      ∧ s1.down_keys = s.down_keys ++ [s.default_down]
      ∧ s1.selection_changed = s.selection_changed := by
  have hb : s.build_lines.selected_item < s.build_lines.lines.length := by
    simpa [Select.build_lines] using h
  have hp := print_lines_spec s.build_lines hb
  have hlen : s.build_lines.painted_lines.length = s.items.length := by
    rw [painted_lines_length]
    simp [Select.build_lines]
  refine ⟨({ s.build_lines with lines := s.build_lines.painted_lines } : Select I).session_keys,
      s.build_lines.painted_lines.map OutCmd.line, ?_, ⟨h, hlen⟩, rfl, rfl, rfl, rfl, rfl⟩
  simp [Select.session_init, hp]

theorem session_init_inv (s s1 : Select I) (out0 : List OutCmd)
    (h : s.session_init = some (s1, out0)) : Inv s1 := by
  by_cases hb : s.selected_item < s.items.length
  · obtain ⟨s1', out0', heq, hinv, _, _, _, _, _⟩ := session_init_spec s hb
    rw [heq] at h
    obtain ⟨h1, h2⟩ := Prod.mk.injEq .. ▸ Option.some.inj h
    exact h1 ▸ hinv
  · have hoob : ¬ s.build_lines.selected_item < s.build_lines.lines.length := by
      simpa [Select.build_lines] using hb
    simp [Select.session_init, print_lines_oob s.build_lines hoob] at h

theorem step_up_spec (s : Select I) (event : Event) (hInv : Inv s)
    (hne : event ≠ confirmEvent) (hup : s.event_contains_key event s.up_keys = true) :
    ∃ (s' : Select I) (out : List OutCmd) (h' : s'.selected_item < s'.items.length),
      s.step event = some (false, s', out,
        if s'.selection_changed = true
        then [(SelectDialogKey.UpKey, s'.items.get ⟨s'.selected_item, h'⟩)] else [])
      ∧ s'.selected_item = (if s.selected_item = 0 then s.selected_item else s.selected_item - 1)
      ∧ s'.items = s.items ∧ s'.selection_changed = s.selection_changed := by
  obtain ⟨s', out, hmu, hsel, hitems, hlen, _, _, hsc⟩ := move_up_spec s hInv
  have h' : s'.selected_item < s'.items.length := by
    rw [hsel, hitems]
    have := hInv.1
    split <;> omega
  have hh := call_event_handler_spec s' SelectDialogKey.UpKey h'
  exact ⟨s', out, h', by simp [Select.step, hne, hup, hmu, hh], hsel, hitems, hsc⟩

theorem step_down_spec (s : Select I) (event : Event) (hInv : Inv s)
    (hne : event ≠ confirmEvent) (hupf : s.event_contains_key event s.up_keys = false)
    (hdn : s.event_contains_key event s.down_keys = true) :
    ∃ (s' : Select I) (out : List OutCmd) (h' : s'.selected_item < s'.items.length),
      s.step event = some (false, s', out,
        if s'.selection_changed = true
        then [(SelectDialogKey.DownKey, s'.items.get ⟨s'.selected_item, h'⟩)] else [])
      ∧ s'.selected_item
          = (if s.selected_item = s.items.length - 1 then s.selected_item
             else s.selected_item + 1)
      ∧ s'.items = s.items ∧ s'.selection_changed = s.selection_changed := by
  obtain ⟨s', out, hmd, hsel, hitems, hlen, _, _, hsc⟩ := move_down_spec s hInv
  have h' : s'.selected_item < s'.items.length := by
    rw [hsel, hitems]
    have := hInv.1
    split <;> omega
  have hh := call_event_handler_spec s' SelectDialogKey.DownKey h'
  exact ⟨s', out, h', by simp [Select.step, hne, hupf, hdn, hmd, hh], hsel, hitems, hsc⟩

theorem with_nsp_painted (s : Select I) (v : Option Char) :
    (s.with_nsp v).painted_lines = s.painted_lines := rfl

theorem with_nsp_print (s : Select I) (v : Option Char) :
    (s.with_nsp v).print_lines
      = Option.map (fun p => (p.1.with_nsp v, p.2)) s.print_lines := by
  by_cases h : s.selected_item < s.lines.length
  · rw [print_lines_spec s h, print_lines_spec (s.with_nsp v) h]
    rfl
  · rw [print_lines_oob s h, print_lines_oob (s.with_nsp v) h]
    rfl

theorem with_nsp_move_up (s : Select I) (v : Option Char) :
    (s.with_nsp v).move_up = Option.map (fun p => (p.1.with_nsp v, p.2)) s.move_up := by
  by_cases h0 : s.selected_item = 0
  · have h0' : (s.with_nsp v).selected_item = 0 := h0
    simp only [Select.move_up]
    rw [if_pos h0', if_pos h0]
    rfl
  · have h0' : ¬ (s.with_nsp v).selected_item = 0 := h0
    simp only [Select.move_up]
    rw [if_neg h0', if_neg h0]
    have e : ({ s.with_nsp v with selected_item := (s.with_nsp v).selected_item - 1 } : Select I)
        = ({ s with selected_item := s.selected_item - 1 } : Select I).with_nsp v := rfl
    rw [e, with_nsp_print]
    cases ({ s with selected_item := s.selected_item - 1 } : Select I).print_lines with
    | none => rfl
    | some p => obtain ⟨s2, out⟩ := p; rfl

theorem with_nsp_move_down (s : Select I) (v : Option Char) :
    (s.with_nsp v).move_down = Option.map (fun p => (p.1.with_nsp v, p.2)) s.move_down := by
  by_cases h0 : s.selected_item = s.items.length - 1
  · have h0' : (s.with_nsp v).selected_item = (s.with_nsp v).items.length - 1 := h0
    simp only [Select.move_down]
    rw [if_pos h0', if_pos h0]
    rfl
  · have h0' : ¬ (s.with_nsp v).selected_item = (s.with_nsp v).items.length - 1 := h0
    simp only [Select.move_down]
    rw [if_neg h0', if_neg h0]
    have e : ({ s.with_nsp v with selected_item := (s.with_nsp v).selected_item + 1 } : Select I)
        = ({ s with selected_item := s.selected_item + 1 } : Select I).with_nsp v := rfl
    rw [e, with_nsp_print]
    cases ({ s with selected_item := s.selected_item + 1 } : Select I).print_lines with
    | none => rfl
    | some p => obtain ⟨s2, out⟩ := p; rfl

theorem with_nsp_handler (s : Select I) (v : Option Char) (key : SelectDialogKey) :
    (s.with_nsp v).call_event_handler_if_supplied key
      = s.call_event_handler_if_supplied key := rfl

theorem with_nsp_step (s : Select I) (v : Option Char) (event : Event) :
    (s.with_nsp v).step event
      = Option.map (fun r => (r.1, r.2.1.with_nsp v, r.2.2)) (s.step event) := by
  by_cases hc : event = confirmEvent
  · subst hc
    rw [step_confirm, step_confirm]
    rfl
  · simp only [Select.step]
    rw [if_neg hc, if_neg hc]
    by_cases hup : s.event_contains_key event s.up_keys = true
    · have hup' : (s.with_nsp v).event_contains_key event (s.with_nsp v).up_keys = true := hup
      rw [if_pos hup', if_pos hup, with_nsp_move_up]
      cases s.move_up with
      | none => rfl
      | some p =>
        obtain ⟨s1, out⟩ := p
        show (match (s1.with_nsp v).call_event_handler_if_supplied SelectDialogKey.UpKey with
              | none => none
              | some tr => some (false, s1.with_nsp v, out, tr))
            = Option.map (fun r => (r.1, r.2.1.with_nsp v, r.2.2))
                (match s1.call_event_handler_if_supplied SelectDialogKey.UpKey with
                 | none => none
                 | some tr => some (false, s1, out, tr))
        rw [with_nsp_handler]
        cases s1.call_event_handler_if_supplied SelectDialogKey.UpKey with
        | none => rfl
        | some tr => rfl
    · have hup' : ¬ (s.with_nsp v).event_contains_key event (s.with_nsp v).up_keys = true := hup
      rw [if_neg hup', if_neg hup]
      by_cases hdn : s.event_contains_key event s.down_keys = true
      · have hdn' : (s.with_nsp v).event_contains_key event (s.with_nsp v).down_keys = true := hdn
        rw [if_pos hdn', if_pos hdn, with_nsp_move_down]
        cases s.move_down with
        | none => rfl
        | some p =>
          obtain ⟨s1, out⟩ := p
          show (match (s1.with_nsp v).call_event_handler_if_supplied SelectDialogKey.DownKey with
                | none => none
                | some tr => some (false, s1.with_nsp v, out, tr))
              = Option.map (fun r => (r.1, r.2.1.with_nsp v, r.2.2))
                  (match s1.call_event_handler_if_supplied SelectDialogKey.DownKey with
                   | none => none
                   | some tr => some (false, s1, out, tr))
          rw [with_nsp_handler]
          cases s1.call_event_handler_if_supplied SelectDialogKey.DownKey with
          | none => rfl
          | some tr => rfl
      · have hdn' : ¬ (s.with_nsp v).event_contains_key event (s.with_nsp v).down_keys = true := hdn
        rw [if_neg hdn', if_neg hdn]
        rfl

theorem with_nsp_loop (events : List Event) :
    ∀ (s : Select I) (v : Option Char),
      (s.with_nsp v).loop events
        = Option.map (fun q => (q.1.with_nsp v, q.2)) (s.loop events) := by
  induction events with
  | nil => intro s v; rfl
  | cons ev rest ih =>
    intro s v
    simp only [Select.loop]
    rw [with_nsp_step]
    cases s.step ev with
    | none => rfl
    | some r =>
      obtain ⟨b, s1, out, tr⟩ := r
      cases b with
      | true => rfl
      | false =>
        show (match (s1.with_nsp v).loop rest with
              | none => none
              | some (sf, out2, tr2, rem) => some (sf, out ++ out2, tr ++ tr2, rem))
            = Option.map (fun q => (q.1.with_nsp v, q.2))
                (match s1.loop rest with
                 | none => none
                 | some (sf, out2, tr2, rem) => some (sf, out ++ out2, tr ++ tr2, rem))
        rw [ih s1 v]
        cases s1.loop rest with
        | none => rfl
        | some q => obtain ⟨sf, out2, tr2, rem⟩ := q; rfl

theorem with_nsp_session_init (s : Select I) (v : Option Char) :
    (s.with_nsp v).session_init
      = Option.map (fun p => (p.1.with_nsp v, p.2)) s.session_init := by
  simp only [Select.session_init]
  have e : (s.with_nsp v).build_lines = s.build_lines.with_nsp v := rfl
  rw [e, with_nsp_print]
  cases s.build_lines.print_lines with
  | none => rfl
  | some p => obtain ⟨s1, out⟩ := p; rfl

/-- The configuration invariant behind the confirm-code exclusion: `Enter`
is in neither key list, and neither default key is `Enter`. -/
abbrev NoEnterKeys (s : Select I) : Prop :=
  KeyCode.Enter ∉ s.up_keys ∧ KeyCode.Enter ∉ s.down_keys
    ∧ s.default_up ≠ KeyCode.Enter ∧ s.default_down ≠ KeyCode.Enter

theorem applyOp_no_enter (s s1 : Select I) (op : ConfigOp)
    (h : NoEnterKeys s)
    (hop1 : op ≠ ConfigOp.set_up_key KeyCode.Enter)
    (hop2 : op ≠ ConfigOp.set_down_key KeyCode.Enter)
    (happ : applyOp s op = some s1) : NoEnterKeys s1 := by
  obtain ⟨hu, hd, hdu, hdd⟩ := h
  cases op with
  | set_pointer c =>
    obtain rfl := Option.some.inj happ
    exact ⟨hu, hd, hdu, hdd⟩
  | set_up_key k =>
    have hk : k ≠ KeyCode.Enter := fun hk => hop1 (by rw [hk])
    obtain rfl := Option.some.inj happ
    exact ⟨hu, hd, hk, hdd⟩
  | set_down_key k =>
    have hk : k ≠ KeyCode.Enter := fun hk => hop2 (by rw [hk])
    obtain rfl := Option.some.inj happ
    exact ⟨hu, hd, hdu, hk⟩
  | set_not_selected_pointer c =>
    obtain rfl := Option.some.inj happ
    exact ⟨hu, hd, hdu, hdd⟩
  | set_move_selected_item_forward =>
    obtain rfl := Option.some.inj happ
    exact ⟨hu, hd, hdu, hdd⟩
  | set_underline_selected_item =>
    obtain rfl := Option.some.inj happ
    exact ⟨hu, hd, hdu, hdd⟩
  | add_up_key k =>
    by_cases hk : k = KeyCode.Enter
    · subst hk
      simp [applyOp, Select.add_up_key, panic_if_key_is_enter] at happ
    · have happ' : some ({ s with up_keys := s.up_keys ++ [k] } : Select I) = some s1 := by
        simpa [applyOp, Select.add_up_key, panic_if_key_is_enter, hk] using happ
      obtain rfl := Option.some.inj happ'
      refine ⟨?_, hd, hdu, hdd⟩
      intro hmem
      rcases List.mem_append.mp hmem with hmem | hmem
      · exact hu hmem
      · exact hk (List.mem_singleton.mp hmem).symm
  | add_down_key k =>
    by_cases hk : k = KeyCode.Enter
    · subst hk
      simp [applyOp, Select.add_down_key, panic_if_key_is_enter] at happ
    · have happ' : some ({ s with down_keys := s.down_keys ++ [k] } : Select I) = some s1 := by
        simpa [applyOp, Select.add_down_key, panic_if_key_is_enter, hk] using happ
      obtain rfl := Option.some.inj happ'
      refine ⟨hu, ?_, hdu, hdd⟩
      intro hmem
      rcases List.mem_append.mp hmem with hmem | hmem
      · exact hd hmem
      · exact hk (List.mem_singleton.mp hmem).symm
  | set_selection_changed =>
    obtain rfl := Option.some.inj happ
    exact ⟨hu, hd, hdu, hdd⟩

theorem applyOps_no_enter (ops : List ConfigOp) :
    ∀ s s1 : Select I, NoEnterKeys s →
      ConfigOp.set_up_key KeyCode.Enter ∉ ops →
      ConfigOp.set_down_key KeyCode.Enter ∉ ops →
      applyOps s ops = some s1 → NoEnterKeys s1 := by
  induction ops with
  | nil =>
    intro s s1 h _ _ happ
    simp [applyOps] at happ
    exact happ ▸ h
  | cons op ops ih =>
    intro s s1 h h1 h2 happ
    simp only [applyOps] at happ
    cases hstep : applyOp s op with
    | none =>
      rw [hstep] at happ
      simp at happ
    | some s2 =>
      rw [hstep] at happ
      have hop1 : op ≠ ConfigOp.set_up_key KeyCode.Enter :=
        fun he => h1 (he ▸ List.mem_cons_self _ _)
      have hop2 : op ≠ ConfigOp.set_down_key KeyCode.Enter :=
        fun he => h2 (he ▸ List.mem_cons_self _ _)
      exact ih s2 s1 (applyOp_no_enter s s2 op h hop1 hop2 hstep)
        (fun hm => h1 (List.mem_cons_of_mem _ hm))
        (fun hm => h2 (List.mem_cons_of_mem _ hm)) happ

/-- A concrete in-session state over two items, used to instantiate the
hypothesis-bearing theorems: lines built, defaults pushed, callback
registered. -/
def sampleState : Select String where
  items := ["a", "b"]
  lines := [Line.new ("a") '>', Line.new ("b") '>']
  selected_item := 0
  pointer := '>'
  not_selected_pointer := none
  default_up := KeyCode.Up
  default_down := KeyCode.Down
  up_keys := [KeyCode.Up]
  down_keys := [KeyCode.Down]
  selection_changed := true
  move_selected_item_forward := false
  underline_selected_item := false

/-- The session-start state reached from `Select.new ["a", "b"]`: lines
painted with index `0` selected and the default keys pushed. -/
def twoItemStart : Select String where
  items := ["a", "b"]
  lines := [⟨"a", '>', true, false, 0⟩, ⟨"b", '>', false, false, 0⟩]
  selected_item := 0
  pointer := '>'
  not_selected_pointer := none
  default_up := KeyCode.Up
  default_down := KeyCode.Down
  up_keys := [KeyCode.Up]
  down_keys := [KeyCode.Down]
  selection_changed := false
  move_selected_item_forward := false
  underline_selected_item := false

/-- The state after one down move from `twoItemStart`. -/
def twoItemDown : Select String :=
  { twoItemStart with
    selected_item := 1
    lines := [⟨"a", '>', false, false, 0⟩, ⟨"b", '>', true, false, 0⟩] }

/-- C1 counterexample: constructing with the empty item list does not fail —
`Select::new` validates nothing, returns an ordinary dialog with the
default configuration, and that dialog still accepts further
configuration. -/
theorem C1_counterexample_construction_succeeds :
    (Select.new ([] : List String)).items = []
    ∧ (Select.new ([] : List String)).pointer = '>'
    ∧ ((Select.new ([] : List String)).add_up_key (KeyCode.Char 'k')).isSome = true := by
  decide

/-- C1 (amended): with an empty item list the failure happens when the
session is started, not at construction: the initial paint of `start`
panics on the out-of-bounds line index (`session_init = none`), so the
session produces no output and reads no input event. -/
theorem C1_empty_list_fails_at_session_start (events : List Event) :
    (Select.new ([] : List String)).session_init = none
    ∧ (Select.new ([] : List String)).start events = none :=
  ⟨rfl, rfl⟩

/-- C2 counterexample: overriding the default up key with the confirm code
is accepted, and after the key push `start` performs, the confirm code is
in the up key set. -/
theorem C2_counterexample_enter_reaches_up_keys :
    KeyCode.Enter
      ∈ (((Select.new (["a"] : List String)).set_up_key KeyCode.Enter).session_keys).up_keys := by
  decide

/-- C2 (amended): for every dialog configuration built from construction
and setter calls that never pass the confirm code to the default-key
overrides `set_up_key`/`set_down_key`, the confirm code is in neither key
set at session start; the overrides themselves are unvalidated and can
break the invariant. -/
theorem C2_no_enter_in_key_sets (items : List I) (ops : List ConfigOp) (s : Select I)
    (h1 : ConfigOp.set_up_key KeyCode.Enter ∉ ops)
    (h2 : ConfigOp.set_down_key KeyCode.Enter ∉ ops)
    (happ : applyOps (Select.new items) ops = some s) :
    KeyCode.Enter ∉ s.session_keys.up_keys ∧ KeyCode.Enter ∉ s.session_keys.down_keys := by
  have h0 : NoEnterKeys (Select.new items : Select I) := by
    refine ⟨List.not_mem_nil _, List.not_mem_nil _, ?_, ?_⟩ <;> simp [Select.new]
  obtain ⟨hu, hd, hdu, hdd⟩ := applyOps_no_enter ops (Select.new items) s h0 h1 h2 happ
  constructor
  · intro hmem
    rcases List.mem_append.mp hmem with hmem | hmem
    · exact hu hmem
    · exact hdu (List.mem_singleton.mp hmem).symm
  · intro hmem
    rcases List.mem_append.mp hmem with hmem | hmem
    · exact hd hmem
    · exact hdd (List.mem_singleton.mp hmem).symm

/-- C2 witness: a configuration adding a custom up key `'k'` satisfies the
hypotheses, and the confirm code is indeed in neither key set at session
start. -/
theorem C2_no_enter_in_key_sets_witness :
    ConfigOp.set_up_key KeyCode.Enter ∉ [ConfigOp.add_up_key (KeyCode.Char 'k')]
    ∧ ConfigOp.set_down_key KeyCode.Enter ∉ [ConfigOp.add_up_key (KeyCode.Char 'k')]
    ∧ applyOps (Select.new (["a"] : List String)) [ConfigOp.add_up_key (KeyCode.Char 'k')]
        = some { Select.new (["a"] : List String) with up_keys := [KeyCode.Char 'k'] }
    ∧ KeyCode.Enter
        ∉ ({ Select.new (["a"] : List String) with
              up_keys := [KeyCode.Char 'k'] } : Select String).session_keys.up_keys
    ∧ KeyCode.Enter
        ∉ ({ Select.new (["a"] : List String) with
              up_keys := [KeyCode.Char 'k'] } : Select String).session_keys.down_keys :=
  ⟨by decide, by decide, by decide,
    C2_no_enter_in_key_sets ["a"] [ConfigOp.add_up_key (KeyCode.Char 'k')] _
      (by decide) (by decide) (by decide)⟩

/-- C3 counterexample: for a two-item list the erase step's first cursor
move is up by `4` rows, not by the number of rows of the painted block
(`items.length = 2`). -/
theorem C3_counterexample_constant_four_rows :
    (Select.new (["a", "b"] : List String)).erase_printed_items.head?
        = some (OutCmd.moveUp 4)
    ∧ (Select.new (["a", "b"] : List String)).erase_printed_items.head?
        ≠ some (OutCmd.moveUp (Select.new (["a", "b"] : List String)).items.length) := by
  decide

/-- C3 (amended): the erase step moves the cursor up by the constant `4`
rows regardless of the item count, overwrites one row per item with a
blank string exactly the item's text length plus a `3`-column margin, and
repeats the same constant `4`-row cursor move afterwards. -/
theorem C3_erase_shape (s : Select I) :
    s.erase_printed_items.head? = some (OutCmd.moveUp 4)
    ∧ s.erase_printed_items.getLast? = some (OutCmd.moveUp 4)
    ∧ (s.erase_printed_items.drop 1).dropLast
        = s.items.map (fun item => OutCmd.blank ((toString item).length + 3)) := by
  refine ⟨rfl, ?_, ?_⟩
  · show ((OutCmd.moveUp 4 :: s.items.map (fun item => OutCmd.blank ((toString item).length + 3)))
        ++ [OutCmd.moveUp 4]).getLast? = some (OutCmd.moveUp 4)
    exact List.getLast?_concat _
  · show (s.items.map (fun item => OutCmd.blank ((toString item).length + 3))
        ++ [OutCmd.moveUp 4]).dropLast
        = s.items.map (fun item => OutCmd.blank ((toString item).length + 3))
    exact List.dropLast_concat

/-- C4: in every state the session reaches — the state after the loop has
consumed any prefix of any event sequence, starting from any successful
session initialisation — the selection index is strictly below the item
count. -/
theorem C4_selection_index_in_bounds (s0 s1 s' : Select I) (out0 : List OutCmd)
    (events : List Event)
    (hinit : s0.session_init = some (s1, out0))
    (hrun : s1.run_events events = some s') :
    s'.selected_item < s'.items.length :=
  (run_events_inv events s1 s' (session_init_inv s0 s1 out0 hinit) hrun).1

/-- C4 witness: the two-item session, after consuming one down event,
has its index in bounds. -/
theorem C4_selection_index_in_bounds_witness :
    (Select.new (["a", "b"] : List String)).session_init
        = some (twoItemStart,
            [OutCmd.line ⟨"a", '>', true, false, 0⟩, OutCmd.line ⟨"b", '>', false, false, 0⟩])
    ∧ twoItemStart.run_events [Event.Key ⟨KeyCode.Down, KeyModifiers.NONE⟩] = some twoItemDown
    ∧ twoItemDown.selected_item < twoItemDown.items.length :=
  ⟨by decide, by decide,
    C4_selection_index_in_bounds (Select.new ["a", "b"]) twoItemStart twoItemDown
      [OutCmd.line ⟨"a", '>', true, false, 0⟩, OutCmd.line ⟨"b", '>', false, false, 0⟩]
      [Event.Key ⟨KeyCode.Down, KeyModifiers.NONE⟩]
      (by decide) (by decide)⟩

/-- C5: a single non-confirm event matching the up set moves the index by
exactly `-1` unless it is `0`, where it is unchanged; a single non-confirm
event matching the down set (and not the up set) moves it by exactly `+1`
unless it is the last index, where it is unchanged — no wraparound either
way. -/
theorem C5_single_step_movement (s : Select I) (event : Event)
    (hInv : Inv s) (hne : event ≠ confirmEvent) :
    (s.event_contains_key event s.up_keys = true →
      ∃ (s' : Select I) (out : List OutCmd) (tr : List (SelectDialogKey × I)),
        s.step event = some (false, s', out, tr)
        ∧ s'.selected_item
            = (if s.selected_item = 0 then s.selected_item else s.selected_item - 1))
    ∧ (s.event_contains_key event s.up_keys = false →
        s.event_contains_key event s.down_keys = true →
      ∃ (s' : Select I) (out : List OutCmd) (tr : List (SelectDialogKey × I)),
        s.step event = some (false, s', out, tr)
        ∧ s'.selected_item
            = (if s.selected_item = s.items.length - 1 then s.selected_item
               else s.selected_item + 1)) := by
  constructor
  · intro hup
    obtain ⟨s', out, h', hstep, hsel, _, _⟩ := step_up_spec s event hInv hne hup
    exact ⟨s', out, _, hstep, hsel⟩
  · intro hupf hdn
    obtain ⟨s', out, h', hstep, hsel, _, _⟩ := step_down_spec s event hInv hne hupf hdn
    exact ⟨s', out, _, hstep, hsel⟩

/-- C5 witness: the sample two-item state with an up-arrow event (a
boundary no-op at index `0`). -/
theorem C5_single_step_movement_witness :
    Inv sampleState
    ∧ Event.Key ⟨KeyCode.Up, KeyModifiers.NONE⟩ ≠ confirmEvent
    ∧ ((sampleState.event_contains_key (Event.Key ⟨KeyCode.Up, KeyModifiers.NONE⟩)
          sampleState.up_keys = true →
        ∃ (s' : Select String) (out : List OutCmd) (tr : List (SelectDialogKey × String)),
          sampleState.step (Event.Key ⟨KeyCode.Up, KeyModifiers.NONE⟩)
              = some (false, s', out, tr)
          ∧ s'.selected_item
              = (if sampleState.selected_item = 0 then sampleState.selected_item
                 else sampleState.selected_item - 1))
      ∧ (sampleState.event_contains_key (Event.Key ⟨KeyCode.Up, KeyModifiers.NONE⟩)
          sampleState.up_keys = false →
         sampleState.event_contains_key (Event.Key ⟨KeyCode.Up, KeyModifiers.NONE⟩)
          sampleState.down_keys = true →
        ∃ (s' : Select String) (out : List OutCmd) (tr : List (SelectDialogKey × String)),
          sampleState.step (Event.Key ⟨KeyCode.Up, KeyModifiers.NONE⟩)
              = some (false, s', out, tr)
          ∧ s'.selected_item
              = (if sampleState.selected_item = sampleState.items.length - 1
                 then sampleState.selected_item
                 else sampleState.selected_item + 1))) :=
  ⟨by decide, by decide,
    C5_single_step_movement sampleState (Event.Key ⟨KeyCode.Up, KeyModifiers.NONE⟩)
      (by decide) (by decide)⟩

/-- C6: once the confirm event arrives, the events after it are returned
unread and `start` returns exactly the item at the selection index held at
that moment (the index reached by consuming the confirm-free prefix). -/
theorem C6_confirm_final (s0 : Select I) (pre rest : List Event)
    (hidx : s0.selected_item < s0.items.length)
    (hpre : confirmEvent ∉ pre) :
    ∃ (s1 : Select I) (out0 : List OutCmd) (sf : Select I) (out : List OutCmd)
      (tr : List (SelectDialogKey × I)) (h : sf.selected_item < sf.items.length),
      s0.session_init = some (s1, out0)
      ∧ s1.run_events pre = some sf
      ∧ s0.start (pre ++ confirmEvent :: rest)
          = some (sf.items.get ⟨sf.selected_item, h⟩, out0 ++ out, tr, rest) := by
  obtain ⟨s1, out0, hinit, hinv1, _, _, _, _, _⟩ := session_init_spec s0 hidx
  obtain ⟨sf, out, tr, hrun, hinvf, hloop⟩ := loop_decomp pre s1 hinv1 hpre rest
  refine ⟨s1, out0, sf, out, tr, hinvf.1, hinit, hrun, ?_⟩
  simp [Select.start, hinit, hloop, hinvf.1]

/-- C6 witness: the two-item dialog with events `[down, confirm, other]`
finishes at the confirm event, leaves the trailing event unread, and
returns the item at the index reached by the prefix. -/
theorem C6_confirm_final_witness :
    (Select.new (["a", "b"] : List String)).selected_item
        < (Select.new (["a", "b"] : List String)).items.length
    ∧ confirmEvent ∉ [Event.Key ⟨KeyCode.Down, KeyModifiers.NONE⟩]
    ∧ ∃ (s1 : Select String) (out0 : List OutCmd) (sf : Select String) (out : List OutCmd)
        (tr : List (SelectDialogKey × String)) (h : sf.selected_item < sf.items.length),
        (Select.new (["a", "b"] : List String)).session_init = some (s1, out0)
        ∧ s1.run_events [Event.Key ⟨KeyCode.Down, KeyModifiers.NONE⟩] = some sf
        ∧ (Select.new (["a", "b"] : List String)).start
            ([Event.Key ⟨KeyCode.Down, KeyModifiers.NONE⟩] ++ confirmEvent :: [Event.Other 7])
            = some (sf.items.get ⟨sf.selected_item, h⟩, out0 ++ out, tr, [Event.Other 7]) :=
  ⟨by decide, by decide,
    C6_confirm_final (Select.new ["a", "b"]) [Event.Key ⟨KeyCode.Down, KeyModifiers.NONE⟩]
      [Event.Other 7] (by decide) (by decide)⟩

/-- C7: with a callback registered, a non-confirm event matching the up set
invokes the callback exactly once, with the up tag and the item at the
(possibly unchanged, on a boundary no-op) current index; likewise for the
down set with the down tag. -/
theorem C7_callback_once_per_move (s : Select I) (event : Event)
    (hInv : Inv s) (hcb : s.selection_changed = true) (hne : event ≠ confirmEvent) :
    (s.event_contains_key event s.up_keys = true →
      ∃ (s' : Select I) (out : List OutCmd) (h' : s'.selected_item < s'.items.length),
        s.step event = some (false, s', out,
          [(SelectDialogKey.UpKey, s'.items.get ⟨s'.selected_item, h'⟩)]))
    ∧ (s.event_contains_key event s.up_keys = false →
        s.event_contains_key event s.down_keys = true →
      ∃ (s' : Select I) (out : List OutCmd) (h' : s'.selected_item < s'.items.length),
        s.step event = some (false, s', out,
          [(SelectDialogKey.DownKey, s'.items.get ⟨s'.selected_item, h'⟩)])) := by
  constructor
  · intro hup
    obtain ⟨s', out, h', hstep, _, _, hsc⟩ := step_up_spec s event hInv hne hup
    refine ⟨s', out, h', ?_⟩
    simpa [hsc, hcb] using hstep
  · intro hupf hdn
    obtain ⟨s', out, h', hstep, _, _, hsc⟩ := step_down_spec s event hInv hne hupf hdn
    refine ⟨s', out, h', ?_⟩
    simpa [hsc, hcb] using hstep

/-- C7 witness: the sample state (callback registered) with an up-arrow
event at index `0` — a boundary no-op that still invokes the callback
once. -/
theorem C7_callback_once_per_move_witness :
    Inv sampleState
    ∧ sampleState.selection_changed = true
    ∧ Event.Key ⟨KeyCode.Up, KeyModifiers.NONE⟩ ≠ confirmEvent
    ∧ ((sampleState.event_contains_key (Event.Key ⟨KeyCode.Up, KeyModifiers.NONE⟩)
          sampleState.up_keys = true →
        ∃ (s' : Select String) (out : List OutCmd) (h' : s'.selected_item < s'.items.length),
          sampleState.step (Event.Key ⟨KeyCode.Up, KeyModifiers.NONE⟩)
              = some (false, s', out,
                  [(SelectDialogKey.UpKey, s'.items.get ⟨s'.selected_item, h'⟩)]))
      ∧ (sampleState.event_contains_key (Event.Key ⟨KeyCode.Up, KeyModifiers.NONE⟩)
          sampleState.up_keys = false →
         sampleState.event_contains_key (Event.Key ⟨KeyCode.Up, KeyModifiers.NONE⟩)
          sampleState.down_keys = true →
        ∃ (s' : Select String) (out : List OutCmd) (h' : s'.selected_item < s'.items.length),
          sampleState.step (Event.Key ⟨KeyCode.Up, KeyModifiers.NONE⟩)
              = some (false, s', out,
                  [(SelectDialogKey.DownKey, s'.items.get ⟨s'.selected_item, h'⟩)]))) :=
  ⟨by decide, rfl, by decide,
    C7_callback_once_per_move sampleState (Event.Key ⟨KeyCode.Up, KeyModifiers.NONE⟩)
      (by decide) rfl (by decide)⟩

/-- C8: adding the fixed confirm code as a custom up or down key always
panics (`none`), for every dialog configuration, and no state with the key
added is ever produced. -/
theorem C8_add_enter_key_rejected (s : Select I) :
    s.add_up_key KeyCode.Enter = none ∧ s.add_down_key KeyCode.Enter = none :=
  ⟨rfl, rfl⟩

/-- C9: the alternate "unselected" pointer glyph never affects a session:
two dialogs identical except for that setting produce, on every event
sequence, the same output lines, the same callback trace, the same
leftover events and the same returned item. -/
theorem C9_not_selected_pointer_inert (s : Select I) (v : Option Char) (events : List Event) :
    (s.with_nsp v).start events = s.start events := by
  simp only [Select.start]
  rw [with_nsp_session_init]
  cases s.session_init with
  | none => rfl
  | some p =>
    obtain ⟨s1, out0⟩ := p
    show (match (s1.with_nsp v).loop events with
          | none => none
          | some (sf, out1, tr, rem) =>
            if h : sf.selected_item < sf.items.length then
              some (sf.items.get ⟨sf.selected_item, h⟩, out0 ++ out1, tr, rem)
            else none)
        = (match s1.loop events with
          | none => none
          | some (sf, out1, tr, rem) =>
            if h : sf.selected_item < sf.items.length then
              some (sf.items.get ⟨sf.selected_item, h⟩, out0 ++ out1, tr, rem)
            else none)
    rw [with_nsp_loop events s1 v]
    cases s1.loop events with
    | none => rfl
    | some q =>
      obtain ⟨sf, out1, tr, rem⟩ := q
      rfl

/-- C10: the loop tests the confirm event before the up and down sets, so
an `Enter`-with-no-modifiers event always ends the loop at once — for
every configuration, even one whose movement sets contain the confirm code
via the default-key overrides — with no state change, no output, no
callback invocation, and the remaining events unread. -/
theorem C10_confirm_checked_first (s : Select I) (rest : List Event) :
    s.loop (confirmEvent :: rest) = some (s, [], [], rest) := by
  simp [Select.loop, step_confirm]

end CliSelect
